import Mathlib

/-!
Verification of the project-resolution subsystem (`_resolve_project.py`) of
maturin-import-hook.

The Python module is embedded shallowly:
* Python strings are Lean `String`s; `str.split(sep)` for a one-character
  separator is `pySplit`, `str.replace("-", "_")` is `pyReplaceDash`.
* `pathlib.Path` values are lists of path components (`FsPath`); the `/`
  join operator is `pathJoin`, which splits its string argument on `/` and
  drops empty components exactly as `pathlib` does.  (Re-rooting on absolute
  right-hand operands is outside the modelled scope; no code path under
  verification joins absolute strings.)
* The filesystem is a finite structure: a set of existing directories and a
  finite map from existing file paths to their parse result (`some t` when
  `tomllib.load` would succeed with document `t`, `none` when opening or
  parsing the file raises).  `Path.resolve()` is OS state (cwd, symlinks) and
  is therefore a function field of the filesystem.
* Python exceptions are the `Except PyErr` channel: `_ProjectResolveError`
  (the only exception `ProjectResolver.resolve` catches), `tomllib`s decode
  error, `OSError` from opening a file, and `TypeError` from joining a path
  with a non-string value.
* Logging calls are side effects with no influence on control flow and are
  dropped.
-/

/-! ## Python string primitives -/

/-- Python `str.split(sep)` for a single-character separator, on the
character list of the string: splitting never yields the empty list and
keeps empty segments, e.g. `"a..b"` splits into `["a", "", "b"]`. -/
def splitOnChar (sep : Char) : List Char → List (List Char)
  | [] => [[]]
  | c :: cs =>
    match splitOnChar sep cs with
    | [] => [[c]]
    | h :: t => if c = sep then [] :: h :: t else (c :: h) :: t

/-- Python `s.split(sep)` for a one-character separator `sep`. -/
def pySplit (s : String) (sep : Char) : List String :=
  (splitOnChar sep s.data).map fun l => ⟨l⟩

/-- Python `s.replace("-", "_")`: both pattern and replacement are single
characters, so this is a character map. -/
def pyReplaceDash (s : String) : String :=
  ⟨s.data.map fun c => if c = '-' then '_' else c⟩

/-- Joining character lists with a separator character; the right inverse of
`splitOnChar` on separator-free segments. -/
def joinWithChar (sep : Char) : List (List Char) → List Char
  | [] => []
  | [c] => c
  | c :: c2 :: rest => c ++ sep :: joinWithChar sep (c2 :: rest)

/-- Builds a dotted qualified module name from its components. -/
def dotJoin (cs : List String) : String :=
  ⟨joinWithChar '.' (cs.map String.data)⟩

/-! ## Paths -/

/-- A `pathlib.Path`: its list of components. -/
abbrev FsPath := List String

/-- The `pathlib` `/` operator `p / s`: the string is split on `/` and empty
components are dropped (`Path("a") / "b/c/"` is `a/b/c`). -/
def pathJoin (p : FsPath) (s : String) : FsPath :=
  p ++ (pySplit s '/').filter fun component => !(component == "")

/-! ## TOML documents -/

/-- A value in a parsed TOML document as `tomllib` loads it: a string, a
table (`dict`, with its insertion order), an array (`list`), or any other
scalar (int, float, bool, datetime) — the code under verification only ever
distinguishes the first three shapes, so other scalars are one constructor. -/
inductive Toml where
  | str : String → Toml
  | table : List (String × Toml) → Toml
  | arr : List Toml → Toml
  | other : Toml

/-- The three `required_type` arguments ever passed to
`_TomlFile.get_value`: `str`, `dict` and `list`. -/
inductive TomlType where
  | str | table | arr
  deriving DecidableEq

/-- Python `isinstance(value, required_type)` for the three shapes used. -/
def tomlIsType : Toml → TomlType → Bool
  | .str _, .str => true
  | .table _, .table => true
  | .arr _, .arr => true
  | _, _ => false

/-- Association-list lookup with the first match winning; Python `dict.get`
(the modelled dicts have unique keys, so first-match is exact). -/
def assocLookup {α β : Type} [DecidableEq α] (k : α) : List (α × β) → Option β
  | [] => none
  | (k2, v) :: rest => if k = k2 then some v else assocLookup k rest

/-- Python `dict.get(key)` on a TOML table; `None` on any non-table. The
loop in `_TomlFile.get_value` only ever calls `.get` on values it has
checked to be dicts, so the non-table case is unreachable there. -/
def tomlGet (t : Toml) (k : String) : Option Toml :=
  match t with
  | .table entries => assocLookup k entries
  | _ => none

/-! ## Python exceptions -/

/-- The exceptions that can cross the functions under verification:
`_ProjectResolveError` (raised and caught by this module),
`tomllib.TOMLDecodeError` (file exists but is not valid TOML),
`OSError` (opening the file fails), and `TypeError` (a `pathlib` join with a
non-string operand). Only `projectResolveError` is ever caught. -/
inductive PyErr where
  | projectResolveError
  | tomlDecodeError
  | osError
  | typeError
  deriving DecidableEq

instance {ε α : Type} [DecidableEq ε] [DecidableEq α] : DecidableEq (Except ε α) := fun a b =>
  match a, b with
  | .ok x, .ok y =>
    if h : x = y then .isTrue (by rw [h]) else .isFalse (fun hh => h (Except.ok.inj hh))
  | .error x, .error y =>
    if h : x = y then .isTrue (by rw [h]) else .isFalse (fun hh => h (Except.error.inj hh))
  | .ok _, .error _ => .isFalse (fun hh => Except.noConfusion hh)
  | .error _, .ok _ => .isFalse (fun hh => Except.noConfusion hh)

/-- Discriminates the two sides of an `Except`. -/
def exceptIsOk {ε α : Type} : Except ε α → Bool
  | .ok _ => true
  | .error _ => false

/-! ## The filesystem -/

/-- A snapshot of the parts of the filesystem the resolver reads: the
existing directories, the existing files together with the TOML document
`tomllib.load` yields for them (`none` when reading or parsing the file
raises), and the ambient behaviour of `Path.resolve()` (absolutisation and
symlink resolution, which depend on OS state outside the program). -/
structure FileSystem where
  dirs : List FsPath
  files : List (FsPath × Option Toml)
  resolvePath : FsPath → FsPath

/-- Python `Path.exists()`: true for existing directories and files. -/
def FileSystem.pathExists (fs : FileSystem) (p : FsPath) : Bool :=
  p ∈ fs.dirs || (assocLookup p fs.files).isSome

/-- Python `Path.is_file()`. -/
def FileSystem.isFile (fs : FileSystem) (p : FsPath) : Bool :=
  (assocLookup p fs.files).isSome

/-! ## `_TomlFile`: the typed config reader -/

/-- `_TomlFile`: a loaded TOML file; the path is carried for diagnostics
only. `tomllib` always yields a dict at top level, so in every value this
development builds, `data` is a `Toml.table`. -/
structure _TomlFile where
  path : FsPath
  data : Toml

/-- `_TomlFile.load`: opens and parses the file. A missing file raises
`OSError`; an unreadable or syntactically invalid file raises
`tomllib.TOMLDecodeError`. Neither is a `_ProjectResolveError`. -/
def _TomlFile.load (fs : FileSystem) (path : FsPath) : Except PyErr _TomlFile :=
  match assocLookup path fs.files with
  | none => .error .osError
  | some none => .error .tomlDecodeError
  | some (some data) => .ok ⟨path, data⟩

/-- The key-descent loop of `_TomlFile.get_value`: walks the keys in order;
returns `none` as soon as a key is missing, and otherwise the reached value
together with the `parent_invalid` flag, which is set (with an early break)
when an intermediate key holds a non-dict value. -/
def getValueLoop : Toml → List String → Option (Toml × Bool)
  | cur, [] => some (cur, false)
  | cur, k :: rest =>
    match tomlGet cur k with
    | none => none
    | some v =>
      if !rest.isEmpty && !(tomlIsType v .table) then some (v, true)
      else getValueLoop v rest

/-- `_TomlFile.get_value(keys, required_type)`: typed multi-level lookup.
The Python code asserts `keys` is non-empty; all callers comply, so the
behaviour on `[]` is irrelevant. A missing key, a non-dict intermediate
value, and a terminal value of the wrong type all yield `None` (the latter
two after an error log, which is dropped here); no exception escapes. -/
def _TomlFile.get_value (f : _TomlFile) (keys : List String) (ty : TomlType) : Option Toml :=
  match getValueLoop f.data keys with
  | none => none
  | some (v, parent_invalid) =>
    if parent_invalid || !(tomlIsType v ty) then none else some v

/-- `get_value(keys, str)` with the string payload extracted; by the
`isinstance` check the successful value is always a `Toml.str`. -/
def _TomlFile.getStr (f : _TomlFile) (keys : List String) : Option String :=
  match f.get_value keys .str with
  | some (.str s) => some s
  | _ => none

/-- `get_value(keys, list)` with the array payload extracted. -/
def _TomlFile.getArr (f : _TomlFile) (keys : List String) : Option (List Toml) :=
  match f.get_value keys .arr with
  | some (.arr l) => some l
  | _ => none

/-- `get_value(keys, dict)` with the table payload extracted. -/
def _TomlFile.getTable (f : _TomlFile) (keys : List String) : Option (List (String × Toml)) :=
  match f.get_value keys .table with
  | some (.table l) => some l
  | _ => none

/-- `get_value_or_default(keys, list, [])`. -/
def _TomlFile.getArrOrDefault (f : _TomlFile) (keys : List String) : List Toml :=
  (f.getArr keys).getD []

/-- `get_value_or_default(keys, dict, {})`. -/
def _TomlFile.getTableOrDefault (f : _TomlFile) (keys : List String) : List (String × Toml) :=
  (f.getTable keys).getD []


/-! ## The resolver functions of `_resolve_project.py` -/

/-- The fallback of `find_cargo_manifest` once no explicit
`tool.maturin.manifest-path` override applies: `project_dir/Cargo.toml`,
then `project_dir/rust/Cargo.toml`, else `None`. -/
def cargoFallback (fs : FileSystem) (project_dir : FsPath) : Option FsPath :=
  if fs.pathExists (pathJoin project_dir "Cargo.toml") then
    some (pathJoin project_dir "Cargo.toml")
  else if fs.pathExists (pathJoin project_dir "rust/Cargo.toml") then
    some (pathJoin project_dir "rust/Cargo.toml")
  else none

/-- `find_cargo_manifest(project_dir)`: prefers the
`tool.maturin.manifest-path` override from `pyproject.toml` (joined to the
project directory, with no existence check), else tries the two
conventional locations. Loading a present but invalid `pyproject.toml`
raises. -/
def find_cargo_manifest (fs : FileSystem) (project_dir : FsPath) :
    Except PyErr (Option FsPath) :=
  let pyproject_path := pathJoin project_dir "pyproject.toml"
  if fs.pathExists pyproject_path then
    match _TomlFile.load fs pyproject_path with
    | .error e => .error e
    | .ok pyproject =>
      match pyproject.getStr ["tool", "maturin", "manifest-path"] with
      | some relative_manifest_path =>
        .ok (some (pathJoin project_dir relative_manifest_path))
      | none => .ok (cargoFallback fs project_dir)
  else .ok (cargoFallback fs project_dir)

/-- `_resolve_module_name(pyproject, cargo)`: the 4-tier precedence chain
`tool.maturin.module-name`, `lib.name`, `project.name`, `package.name`. -/
def _resolve_module_name (pyproject cargo : _TomlFile) : Option String :=
  match pyproject.getStr ["tool", "maturin", "module-name"] with
  | some module_name => some module_name
  | none =>
  match cargo.getStr ["lib", "name"] with
  | some module_name => some module_name
  | none =>
  match pyproject.getStr ["project", "name"] with
  | some module_name => some module_name
  | none => cargo.getStr ["package", "name"]

/-- The generator scanned by `any(...)` in `_resolve_py_root`: for each
candidate in order, if it is a string `p`, test
`(project_dir / p / "__init__.py").is_file()` and stop at the first hit;
joining with a non-string candidate raises `TypeError` (Python evaluates
the join before `any` can move on), so a non-string is only reached — and
only raises — when every earlier candidate missed. -/
def anyInitFile (fs : FileSystem) (project_dir : FsPath) :
    List Toml → Except PyErr Bool
  | [] => .ok false
  | t :: rest =>
    match t with
    | .str p =>
      if fs.isFile (pathJoin (pathJoin project_dir p) "__init__.py") then .ok true
      else anyInitFile fs project_dir rest
    | _ => .error .typeError

/-- `_resolve_py_root(project_dir, pyproject)`: an explicit
`tool.maturin.python-source` override wins unconditionally; without a
`project.name` the project directory is returned; otherwise mixed layout is
inferred from `rust/Cargo.toml` plus an `__init__.py` marker under
`src/<package_name>/` or under one of `tool.maturin.python-packages`. -/
def _resolve_py_root (fs : FileSystem) (project_dir : FsPath) (pyproject : _TomlFile) :
    Except PyErr FsPath :=
  match pyproject.getStr ["tool", "maturin", "python-source"] with
  | some py_root => .ok (pathJoin project_dir py_root)
  | none =>
  match pyproject.getStr ["project", "name"] with
  | none => .ok project_dir
  | some project_name =>
    let rust_cargo_toml_found := fs.pathExists (pathJoin project_dir "rust/Cargo.toml")
    let python_packages := pyproject.getArrOrDefault ["tool", "maturin", "python-packages"]
    let package_name := pyReplaceDash project_name
    match anyInitFile fs project_dir
        (Toml.str ("src/" ++ package_name ++ "/") :: python_packages) with
    | .error e => .error e
    | .ok python_src_found =>
      .ok (if rust_cargo_toml_found && python_src_found
           then pathJoin project_dir "src" else project_dir)

/-- `_resolve_rust_module(python_dir, module_name)`: splits the qualified
module name on `.`; with several components the top-level package is the
first component, the extension directory joins all but the last, and the
extension name is the last; with a single component all three collapse. -/
def _resolve_rust_module (python_dir : FsPath) (module_name : String) :
    FsPath × FsPath × String :=
  let parts := pySplit module_name '.'
  if parts.length > 1 then
    (pathJoin python_dir (parts.headD ""),
     List.foldl pathJoin python_dir parts.dropLast,
     parts.getLastD "")
  else
    (pathJoin python_dir module_name, pathJoin python_dir module_name, module_name)

/-- The loop body of `_get_immediate_path_dependencies`: for each value of
the `dependencies` table in declaration order, a table-valued entry with a
`path` key contributes `(manifest_dir_path / path).resolve()`; joining with
a non-string `path` value raises `TypeError`. -/
def pathDepsOfEntries (fs : FileSystem) (manifest_dir_path : FsPath) :
    List (String × Toml) → Except PyErr (List FsPath)
  | [] => .ok []
  | (_, dependency) :: rest =>
    match dependency with
    | .table d =>
      match assocLookup "path" d with
      | some (.str relative_path) =>
        match pathDepsOfEntries fs manifest_dir_path rest with
        | .error e => .error e
        | .ok deps =>
          .ok (fs.resolvePath (pathJoin manifest_dir_path relative_path) :: deps)
      | some _ => .error .typeError
      | none => pathDepsOfEntries fs manifest_dir_path rest
    | _ => pathDepsOfEntries fs manifest_dir_path rest

/-- `_get_immediate_path_dependencies(manifest_dir_path, cargo)`. -/
def _get_immediate_path_dependencies (fs : FileSystem) (manifest_dir_path : FsPath)
    (cargo : _TomlFile) : Except PyErr (List FsPath) :=
  pathDepsOfEntries fs manifest_dir_path (cargo.getTableOrDefault ["dependencies"])

/-! ## The resolved record -/

/-- The `MaturinProject` dataclass. The `_all_path_dependencies` field is
the lazy cache behind the `all_path_dependencies` property and starts out
unset. -/
structure MaturinProject where
  cargo_manifest_path : FsPath
  module_full_name : String
  python_dir : FsPath
  python_module : Option FsPath
  extension_module_dir : Option FsPath
  immediate_path_dependencies : List FsPath
  _all_path_dependencies : Option (List FsPath) := none
  deriving DecidableEq

/-- `MaturinProject.package_name`: `module_full_name.split(".")[0]` (the
split list is never empty, so indexing cannot fail). -/
def MaturinProject.package_name (p : MaturinProject) : String :=
  (pySplit p.module_full_name '.').headD ""

/-- `MaturinProject.module_name`: `module_full_name.split(".")[-1]`. -/
def MaturinProject.module_name (p : MaturinProject) : String :=
  (pySplit p.module_full_name '.').getLastD ""

/-- `MaturinProject.is_mixed`. -/
def MaturinProject.is_mixed (p : MaturinProject) : Bool :=
  p.extension_module_dir.isSome

/-! ## Sorting paths

Python `sorted()` on `pathlib.Path` objects orders them by their string
form; `sortPaths` is a comparison sort (insertion sort) over that order.
-/

/-- Strict lexicographic order on lists of naturals. -/
def natListLt : List Nat → List Nat → Bool
  | [], [] => false
  | [], _ :: _ => true
  | _ :: _, [] => false
  | a :: as, b :: bs => decide (a < b) || (decide (a = b) && natListLt as bs)

/-- The sort key of a path: the code points of its slash-joined string
form, which is what `pathlib`s comparison operators compare. -/
def pathKey (p : FsPath) : List Nat :=
  (joinWithChar '/' (p.map String.data)).map Char.toNat

/-- The (total) path comparison used by the sort. -/
def pathLe (a b : FsPath) : Bool :=
  !(natListLt (pathKey b) (pathKey a))

/-- Inserts a path into a sorted list, keeping it sorted. -/
def insertSorted (x : FsPath) : List FsPath → List FsPath
  | [] => [x]
  | y :: ys => if pathLe x y then x :: y :: ys else y :: insertSorted x ys

/-- Python `sorted()` over paths, as an insertion sort. -/
def sortPaths (l : List FsPath) : List FsPath :=
  l.foldr insertSorted []

/-! ## The transitive path-dependency walker -/

/-- The per-directory step of `_find_all_path_dependencies`: the immediate
path dependencies of `dependency_project_dir`, or `[]` when it has no
`Cargo.toml`; loading an existing but unreadable/invalid manifest raises. -/
def walkerDeps (fs : FileSystem) (dependency_project_dir : FsPath) :
    Except PyErr (List FsPath) :=
  if fs.pathExists (pathJoin dependency_project_dir "Cargo.toml") then
    match _TomlFile.load fs (pathJoin dependency_project_dir "Cargo.toml") with
    | .error e => .error e
    | .ok cargo => _get_immediate_path_dependencies fs dependency_project_dir cargo
  else .ok []

/-- The directories of the filesystem snapshot that carry a `Cargo.toml`
entry: only these can contribute a non-trivial `walkerDeps` step, so they
bound how often the walker can grow its frontier. -/
def manifestDirs (fs : FileSystem) : List FsPath :=
  (fs.dirs ++ fs.files.map Prod.fst).filterMap fun p =>
    if p.getLast? = some "Cargo.toml" then some p.dropLast else none

/-- The number of dependencies a directory pushes when first visited. -/
def depsLen (fs : FileSystem) (d : FsPath) : Nat :=
  match walkerDeps fs d with
  | .ok l => l.length
  | .error _ => 0

/-- The loop variant of the `while to_search:` loop: the frontier size plus
the dependencies still obtainable from unvisited manifest directories.
Every iteration decreases it, which bounds the number of iterations. -/
def walkMeasure (fs : FileSystem) (to_search visited : List FsPath) : Nat :=
  to_search.length +
    ((((manifestDirs fs).dedup).filter fun k => decide (¬ k ∈ visited)).map (depsLen fs)).sum

/-- The `while to_search:` loop of `_find_all_path_dependencies`, with an
explicit iteration budget (`none` means the budget ran out; the caller
passes a budget exceeding `walkMeasure`, which `walkFuel_sufficient` proves
is never exhausted). Python pops from the end of `to_search` and extends at
the end; here the head of `to_search` is the popped element, so an extend
pushes the reversed dependency list. `visited` is the Python set, kept as a
duplicate-free list. -/
def walkFuel (fs : FileSystem) : Nat → List FsPath → List FsPath →
    Option (Except PyErr (List FsPath))
  | 0, _, _ => none
  | _ + 1, [], visited => some (.ok (sortPaths visited))
  | fuel + 1, dependency_project_dir :: rest, visited =>
    if dependency_project_dir ∈ visited then walkFuel fs fuel rest visited
    else
      match walkerDeps fs dependency_project_dir with
      | .error e => some (.error e)
      | .ok deps =>
        walkFuel fs fuel (deps.reverse ++ rest) (dependency_project_dir :: visited)

/-- `_find_all_path_dependencies(immediate_path_dependencies)`: the sorted
transitive closure. The fuel exceeds the loop variant, so the exhaustion
branch is unreachable (`walkFuel_sufficient`). -/
def _find_all_path_dependencies (fs : FileSystem)
    (immediate_path_dependencies : List FsPath) : Except PyErr (List FsPath) :=
  if immediate_path_dependencies.isEmpty then .ok []
  else
    match walkFuel fs (walkMeasure fs immediate_path_dependencies [] + 1)
        immediate_path_dependencies [] with
    | some r => r
    | none => .ok []

/-- The paths reachable from the seed list along the "has this immediate
path dependency" relation: the set `_find_all_path_dependencies` computes. -/
inductive PathDep (fs : FileSystem) (seeds : List FsPath) : FsPath → Prop where
  | seed : ∀ p, p ∈ seeds → PathDep fs seeds p
  | step : ∀ p q l, PathDep fs seeds q → walkerDeps fs q = .ok l → p ∈ l →
      PathDep fs seeds p

/-! ## The orchestrator -/

/-- `_resolve_project(project_dir)`: sequences the whole resolution.
`rm` below is the `_resolve_rust_module` triple; `rm.1` is `python_module`,
`rm.2.1` is `extension_module_dir`. If the computed top-level package path
does not exist, both optional path fields are cleared. -/
def _resolve_project (fs : FileSystem) (project_dir : FsPath) :
    Except PyErr MaturinProject :=
  if fs.pathExists (pathJoin project_dir "pyproject.toml") = false then
    .error .projectResolveError
  else
  match _TomlFile.load fs (pathJoin project_dir "pyproject.toml") with
  | .error e => .error e
  | .ok pyproject =>
  match find_cargo_manifest fs project_dir with
  | .error e => .error e
  | .ok none => .error .projectResolveError
  | .ok (some manifest_path) =>
  match _TomlFile.load fs manifest_path with
  | .error e => .error e
  | .ok cargo =>
  match _resolve_module_name pyproject cargo with
  | none => .error .projectResolveError
  | some module_full_name =>
  match _resolve_py_root fs project_dir pyproject with
  | .error e => .error e
  | .ok python_dir =>
    match _get_immediate_path_dependencies fs manifest_path.dropLast cargo with
    | .error e => .error e
    | .ok immediate_path_dependencies =>
      if fs.pathExists (_resolve_rust_module python_dir module_full_name).1 = false then
        .ok { cargo_manifest_path := manifest_path
              module_full_name := module_full_name
              python_dir := python_dir
              python_module := none
              extension_module_dir := none
              immediate_path_dependencies := immediate_path_dependencies }
      else
        .ok { cargo_manifest_path := manifest_path
              module_full_name := module_full_name
              python_dir := python_dir
              python_module := some (_resolve_rust_module python_dir module_full_name).1
              extension_module_dir := some (_resolve_rust_module python_dir module_full_name).2.1
              immediate_path_dependencies := immediate_path_dependencies }

/-- The memoisation dict `ProjectResolver._resolved_project_cache`. -/
abbrev ResolverCache := List (FsPath × Option MaturinProject)

/-- `ProjectResolver.resolve(project_dir)`, with the cache passed and
returned explicitly. Only `_ProjectResolveError` is caught (and memoised as
a negative result); any other exception propagates to the caller before the
cache assignment runs, leaving the cache unchanged. -/
def ProjectResolver.resolve (fs : FileSystem) (cache : ResolverCache)
    (project_dir : FsPath) :
    Except PyErr (Option MaturinProject) × ResolverCache :=
  match assocLookup project_dir cache with
  | some resolved => (.ok resolved, cache)
  | none =>
    match _resolve_project fs project_dir with
    | .ok resolved => (.ok (some resolved), (project_dir, some resolved) :: cache)
    | .error .projectResolveError => (.ok none, (project_dir, none) :: cache)
    | .error e => (.error e, cache)

/-! ## Reference semantics for the typed lookup -/

/-- Reference lookup semantics following the specification text (section
4.1) word for word: descend one key at a time; a missing key is absent; an
intermediate key whose value is not a nested map is absent; a terminal
value that does not match the expected type is absent. It is compared
against the implementation `_TomlFile.get_value` in `c6_typed_lookup`. -/
def specGet : Toml → List String → TomlType → Option Toml
  | _, [], _ => none
  | cur, [k], ty =>
    match tomlGet cur k with
    | none => none
    | some v => if tomlIsType v ty then some v else none
  | cur, k :: k2 :: rest, ty =>
    match tomlGet cur k with
    | none => none
    | some v => if tomlIsType v .table then specGet v (k2 :: rest) ty else none

/-! ## Statement helpers -/

/-- The mixed-layout marker condition of the specification (section 4.3):
an `__init__.py` exists under `project_dir/src/<package_name>/` or under a
directory listed (as a string) in `tool.maturin.python-packages`. -/
def srcMarkerFound (fs : FileSystem) (project_dir : FsPath) (package_name : String)
    (python_packages : List Toml) : Prop :=
  fs.isFile (pathJoin (pathJoin project_dir ("src/" ++ package_name ++ "/")) "__init__.py") = true ∨
  ∃ s, Toml.str s ∈ python_packages ∧
    fs.isFile (pathJoin (pathJoin project_dir s) "__init__.py") = true

/-! ## Concrete filesystem snapshots and configs used as test inputs -/

/-- A filesystem with nothing in it. -/
def fsEmpty : FileSystem := ⟨[], [], id⟩

/-- A `pyproject.toml` carrying all of tier 1 (`tool.maturin.module-name`)
and tier 3 (`project.name`). -/
def pyAllTiers : _TomlFile :=
  ⟨["p", "pyproject.toml"],
   .table [("tool", .table [("maturin", .table [("module-name", .str "tier1")])]),
           ("project", .table [("name", .str "tier3")])]⟩

/-- A `Cargo.toml` carrying tier 2 (`lib.name`) and tier 4 (`package.name`). -/
def cargoAllTiers : _TomlFile :=
  ⟨["p", "Cargo.toml"],
   .table [("lib", .table [("name", .str "tier2")]),
           ("package", .table [("name", .str "tier4")])]⟩

/-- The `pyproject.toml` document of the mixed-layout sample project. -/
def tomlPyMixed : Toml := .table [("project", .table [("name", .str "my-pkg")])]

/-- The `rust/Cargo.toml` document of the mixed-layout sample project. -/
def tomlCargoMixed : Toml := .table [("lib", .table [("name", .str "my_pkg._native")])]

/-- A mixed-layout project at `proj`: nested `rust/Cargo.toml` and a
`src/my_pkg/__init__.py` marker. -/
def fsMixed : FileSystem :=
  ⟨[["proj"], ["proj", "src"], ["proj", "src", "my_pkg"]],
   [(["proj", "pyproject.toml"], some tomlPyMixed),
    (["proj", "rust", "Cargo.toml"], some tomlCargoMixed),
    (["proj", "src", "my_pkg", "__init__.py"], none)],
   id⟩

/-- The record `_resolve_project` yields on `fsMixed`. -/
def projMixed : MaturinProject :=
  { cargo_manifest_path := ["proj", "rust", "Cargo.toml"]
    module_full_name := "my_pkg._native"
    python_dir := ["proj", "src"]
    python_module := some ["proj", "src", "my_pkg"]
    extension_module_dir := some ["proj", "src", "my_pkg"]
    immediate_path_dependencies := [] }

/-- A project whose configured `tool.maturin.module-name` is the empty
string; `pyproject.toml` and `Cargo.toml` both parse. -/
def fsEmptyName : FileSystem :=
  ⟨[],
   [(["q", "pyproject.toml"],
     some (.table [("tool", .table [("maturin", .table [("module-name", .str "")])])])),
    (["q", "Cargo.toml"],
     some (.table [("package", .table [("name", .str "x")])]))],
   id⟩

/-- A `pyproject.toml` with a project name and a `tool.maturin.python-packages`
list containing a non-string element. -/
def pyBadPkgs : _TomlFile :=
  ⟨["p", "pyproject.toml"],
   .table [("project", .table [("name", .str "x")]),
           ("tool", .table [("maturin", .table [("python-packages", .arr [Toml.other])])])]⟩

/-- A `pyproject.toml` with an explicit `tool.maturin.python-source`. -/
def pySrcOverride : _TomlFile :=
  ⟨["p", "pyproject.toml"],
   .table [("tool", .table [("maturin", .table [("python-source", .str "python")])])]⟩

/-- A filesystem where the conventional `src/x/__init__.py` marker of the
`pyBadPkgs` project exists. -/
def fsSrcMarker : FileSystem :=
  ⟨[["p"]], [(["p", "src", "x", "__init__.py"], none)], id⟩

/-- A project directory whose `pyproject.toml` exists but does not parse. -/
def fsBadToml : FileSystem := ⟨[], [(["p", "pyproject.toml"], none)], id⟩

/-- The parsed `pyproject.toml` of `fsBadCargo`. -/
def tomlPyX : Toml := .table [("project", .table [("name", .str "x")])]

/-- A project whose `pyproject.toml` parses but whose chosen `Cargo.toml`
exists and does not parse. -/
def fsBadCargo : FileSystem :=
  ⟨[], [(["p", "pyproject.toml"], some tomlPyX), (["p", "Cargo.toml"], none)], id⟩

/-- The manifest of sample project `A`: one path dependency on `../B`. -/
def tomlCargoA : Toml :=
  .table [("dependencies", .table [("b", .table [("path", .str "../B")])])]

/-- The manifest of sample project `B`: one path dependency on `../A`. -/
def tomlCargoB : Toml :=
  .table [("dependencies", .table [("a", .table [("path", .str "../A")])])]

/-- `Path.resolve()` behaviour for the two-project cycle: normalises the
two `..` joins, leaves everything else alone. -/
def resolveCyc : FsPath → FsPath := fun p =>
  if p = ["A", "..", "B"] then ["B"] else if p = ["B", "..", "A"] then ["A"] else p

/-- A dependency cycle: `A` depends on `B` by path and `B` on `A`. -/
def fsCyc : FileSystem :=
  ⟨[], [(["A", "Cargo.toml"], some tomlCargoA), (["B", "Cargo.toml"], some tomlCargoB)],
   resolveCyc⟩

/-! ## Lemmas about splitting and joining -/

theorem splitOnChar_ne_nil (sep : Char) (l : List Char) : splitOnChar sep l ≠ [] := by
  induction l with
  | nil => simp [splitOnChar]
  | cons c cs ih =>
    simp only [splitOnChar]
    split
    · simp
    · split <;> simp

theorem pySplit_ne_nil (s : String) (sep : Char) : pySplit s sep ≠ [] := by
  simp [pySplit, splitOnChar_ne_nil]

theorem splitOnChar_not_mem (sep : Char) (l : List Char) (h : ¬ sep ∈ l) :
    splitOnChar sep l = [l] := by
  induction l with
  | nil => rfl
  | cons c cs ih =>
    simp only [List.mem_cons, not_or] at h
    simp only [splitOnChar, ih h.2]
    have : ¬ c = sep := fun hc => h.1 hc.symm
    simp [this]

theorem splitOnChar_append_sep (sep : Char) (a r : List Char) (h : ¬ sep ∈ a) :
    splitOnChar sep (a ++ sep :: r) = a :: splitOnChar sep r := by
  induction a with
  | nil =>
    simp only [List.nil_append, splitOnChar]
    have hne := splitOnChar_ne_nil sep r
    cases hr : splitOnChar sep r with
    | nil => exact absurd hr hne
    | cons x xs => simp
  | cons c cs ih =>
    simp only [List.mem_cons, not_or] at h
    have ih2 := ih h.2
    have hcs : ¬ c = sep := fun hc => h.1 hc.symm
    simp only [List.cons_append, splitOnChar, List.append_eq, ih2, hcs, if_false]

theorem splitOnChar_joinWithChar (sep : Char) :
    ∀ cs : List (List Char), cs ≠ [] → (∀ c ∈ cs, ¬ sep ∈ c) →
      splitOnChar sep (joinWithChar sep cs) = cs
  | [], h, _ => absurd rfl h
  | [c], _, h2 => by
    simp only [joinWithChar]
    exact splitOnChar_not_mem sep c (h2 c (by simp))
  | c :: c2 :: rest, _, h2 => by
    simp only [joinWithChar]
    rw [splitOnChar_append_sep sep c _ (h2 c (by simp))]
    rw [splitOnChar_joinWithChar sep (c2 :: rest) (by simp) (fun x hx => h2 x (by simp [hx]))]

theorem map_mk_map_data : ∀ cs : List String,
    List.map (fun l => (⟨l⟩ : String)) (cs.map String.data) = cs
  | [] => rfl
  | c :: cs => by
    simp only [List.map_cons]
    rw [map_mk_map_data cs]

theorem pySplit_dotJoin (cs : List String) (h1 : cs ≠ [])
    (h2 : ∀ c ∈ cs, ¬ '.' ∈ c.data) : pySplit (dotJoin cs) '.' = cs := by
  unfold pySplit dotJoin
  rw [splitOnChar_joinWithChar '.' (cs.map String.data)
    (by simpa using h1)
    (by intro c hc; obtain ⟨s, hs, rfl⟩ := List.mem_map.mp hc; exact h2 s hs)]
  exact map_mk_map_data cs

theorem pathJoin_singleton (p : FsPath) (c : String) (h1 : ¬ c = "")
    (h2 : ¬ '/' ∈ c.data) : pathJoin p c = p ++ [c] := by
  unfold pathJoin pySplit
  rw [splitOnChar_not_mem _ _ h2]
  have hc : (⟨c.data⟩ : String) = c := rfl
  simp [hc, h1]

theorem foldl_pathJoin (cs : List String) (h : ∀ c ∈ cs, ¬ c = "" ∧ ¬ '/' ∈ c.data) :
    ∀ p : FsPath, List.foldl pathJoin p cs = p ++ cs := by
  induction cs with
  | nil => simp
  | cons c cs ih =>
    intro p
    have hc := h c (by simp)
    simp only [List.foldl_cons, pathJoin_singleton p c hc.1 hc.2]
    rw [ih (fun x hx => h x (by simp [hx]))]
    simp

/-! ## Lemmas about the path order and the sort -/

theorem natListLt_asymm : ∀ a b, natListLt a b = true → natListLt b a = true → False
  | [], [], h1, _ => by simp [natListLt] at h1
  | [], _ :: _, _, h2 => by simp [natListLt] at h2
  | _ :: _, [], h1, _ => by simp [natListLt] at h1
  | a :: as, b :: bs, h1, h2 => by
    simp only [natListLt, Bool.or_eq_true, Bool.and_eq_true, decide_eq_true_eq] at h1 h2
    rcases h1 with h1 | ⟨hab, h1⟩ <;> rcases h2 with h2 | ⟨hba, h2⟩
    · omega
    · omega
    · omega
    · exact natListLt_asymm as bs h1 h2

theorem natListLt_connex : ∀ a b, natListLt a b = false → natListLt b a = false → a = b
  | [], [], _, _ => rfl
  | [], _ :: _, h1, _ => by simp [natListLt] at h1
  | _ :: _, [], _, h2 => by simp [natListLt] at h2
  | a :: as, b :: bs, h1, h2 => by
    simp only [natListLt, Bool.or_eq_false_iff, Bool.and_eq_false_iff,
      decide_eq_false_iff_not] at h1 h2
    have hab : a = b := by omega
    subst hab
    rcases h1.2 with h1a | h1a
    · omega
    · rcases h2.2 with h2a | h2a
      · omega
      · rw [natListLt_connex as bs h1a h2a]

theorem natListLt_trans : ∀ a b c, natListLt a b = true → natListLt b c = true →
    natListLt a c = true
  | [], _ :: _, _ :: _, _, _ => by simp [natListLt]
  | [], [], _, h1, _ => by simp [natListLt] at h1
  | _ :: _, [], _, h1, _ => by simp [natListLt] at h1
  | _, _ :: _, [], _, h2 => by simp [natListLt] at h2
  | a :: as, b :: bs, c :: cs, h1, h2 => by
    simp only [natListLt, Bool.or_eq_true, Bool.and_eq_true, decide_eq_true_eq] at h1 h2 ⊢
    rcases h1 with h1 | ⟨hab, h1⟩ <;> rcases h2 with h2 | ⟨hbc, h2⟩
    · left; omega
    · left; omega
    · left; omega
    · right; exact ⟨by omega, natListLt_trans as bs cs h1 h2⟩

theorem pathLe_total (a b : FsPath) : pathLe a b = true ∨ pathLe b a = true := by
  unfold pathLe
  cases h1 : natListLt (pathKey b) (pathKey a) with
  | false => left; rfl
  | true =>
    cases h2 : natListLt (pathKey a) (pathKey b) with
    | false => right; rfl
    | true => exact absurd (natListLt_asymm _ _ h1 h2) not_false

theorem pathLe_trans (a b c : FsPath) (h1 : pathLe a b = true) (h2 : pathLe b c = true) :
    pathLe a c = true := by
  unfold pathLe at h1 h2 ⊢
  simp only [Bool.not_eq_true'] at h1 h2 ⊢
  cases h3 : natListLt (pathKey c) (pathKey a) with
  | false => rfl
  | true =>
    exfalso
    cases h4 : natListLt (pathKey b) (pathKey c) with
    | true => exact absurd (natListLt_trans _ _ _ h4 h3) (by simp [h1])
    | false =>
      have hcb := natListLt_connex _ _ h2 h4
      rw [hcb] at h3
      rw [h1] at h3
      exact Bool.noConfusion h3

theorem insertSorted_mem (x y : FsPath) : ∀ l, y ∈ insertSorted x l ↔ y = x ∨ y ∈ l
  | [] => by simp [insertSorted]
  | z :: zs => by
    simp only [insertSorted]
    split
    · simp [List.mem_cons]
    · simp only [List.mem_cons, insertSorted_mem x y zs]; tauto

theorem insertSorted_perm (x : FsPath) : ∀ l, (insertSorted x l).Perm (x :: l)
  | [] => List.Perm.refl _
  | z :: zs => by
    simp only [insertSorted]
    split
    · exact List.Perm.refl _
    · exact ((insertSorted_perm x zs).cons z).trans (List.Perm.swap x z zs)

theorem sortPaths_perm : ∀ l : List FsPath, (sortPaths l).Perm l
  | [] => List.Perm.refl _
  | a :: l => by
    have : sortPaths (a :: l) = insertSorted a (sortPaths l) := rfl
    rw [this]
    exact (insertSorted_perm a (sortPaths l)).trans ((sortPaths_perm l).cons a)

theorem sortPaths_mem (x : FsPath) (l : List FsPath) : x ∈ sortPaths l ↔ x ∈ l :=
  (sortPaths_perm l).mem_iff

theorem sortPaths_nodup (l : List FsPath) (h : l.Nodup) : (sortPaths l).Nodup :=
  ((sortPaths_perm l).nodup_iff).mpr h

theorem insertSorted_sorted (x : FsPath) :
    ∀ l, List.Pairwise (fun a b => pathLe a b = true) l →
      List.Pairwise (fun a b => pathLe a b = true) (insertSorted x l)
  | [], _ => by simp [insertSorted]
  | y :: ys, h => by
    rw [List.pairwise_cons] at h
    obtain ⟨hy, hys⟩ := h
    by_cases hxy : pathLe x y = true
    · simp only [insertSorted, hxy, if_true]
      refine List.pairwise_cons.mpr ⟨?_, List.pairwise_cons.mpr ⟨hy, hys⟩⟩
      intro z hz
      rcases List.mem_cons.mp hz with rfl | hz
      · exact hxy
      · exact pathLe_trans x y z hxy (hy z hz)
    · have hyx : pathLe y x = true := (pathLe_total x y).resolve_left hxy
      simp only [insertSorted, hxy, if_false]
      refine List.pairwise_cons.mpr ⟨?_, insertSorted_sorted x ys hys⟩
      intro z hz
      rcases (insertSorted_mem x z ys).mp hz with rfl | hz
      · exact hyx
      · exact hy z hz

theorem sortPaths_sorted : ∀ l : List FsPath,
    List.Pairwise (fun a b => pathLe a b = true) (sortPaths l)
  | [] => by simp [sortPaths]
  | a :: l => by
    have : sortPaths (a :: l) = insertSorted a (sortPaths l) := rfl
    rw [this]
    exact insertSorted_sorted a (sortPaths l) (sortPaths_sorted l)

/-! ## Lemmas about the dependency walker -/

theorem assocLookup_isSome_mem {α β : Type} [DecidableEq α] (k : α) :
    ∀ l : List (α × β), (assocLookup k l).isSome = true → k ∈ l.map Prod.fst
  | [], h => by simp [assocLookup] at h
  | (k2, v) :: rest, h => by
    by_cases hk : k = k2
    · simp [hk]
    · simp only [assocLookup, hk, if_false] at h
      simp [assocLookup_isSome_mem k rest h]

theorem mem_manifestDirs_of_exists (fs : FileSystem) (d : FsPath)
    (h : fs.pathExists (pathJoin d "Cargo.toml") = true) : d ∈ manifestDirs fs := by
  have hj : pathJoin d "Cargo.toml" = d ++ ["Cargo.toml"] := rfl
  rw [hj] at h
  unfold FileSystem.pathExists at h
  rw [Bool.or_eq_true] at h
  unfold manifestDirs
  rw [List.mem_filterMap]
  refine ⟨d ++ ["Cargo.toml"], ?_, ?_⟩
  · rw [List.mem_append]
    rcases h with h | h
    · left; simpa using h
    · right; exact assocLookup_isSome_mem _ fs.files h
  · rw [List.getLast?_concat, List.dropLast_concat]
    simp

theorem depsLen_eq (fs : FileSystem) (d : FsPath) (deps : List FsPath)
    (h : walkerDeps fs d = .ok deps) : depsLen fs d = deps.length := by
  unfold depsLen
  rw [h]

theorem walkerDeps_nil_of_not_mem (fs : FileSystem) (d : FsPath) (deps : List FsPath)
    (hm : ¬ d ∈ manifestDirs fs) (h : walkerDeps fs d = .ok deps) : deps = [] := by
  unfold walkerDeps at h
  split at h
  case isTrue hex => exact absurd (mem_manifestDirs_of_exists fs d hex) hm
  case isFalse hex => exact (Except.ok.inj h).symm

theorem sum_filter_cons (f : FsPath → Nat) (v : List FsPath) (p : FsPath) (hpv : ¬ p ∈ v) :
    ∀ l : List FsPath, l.Nodup → p ∈ l →
      ((l.filter fun k => decide (¬ k ∈ v)).map f).sum =
        f p + ((l.filter fun k => decide (¬ k ∈ p :: v)).map f).sum
  | [], _, hp => absurd hp (by simp)
  | a :: l, hnd, hp => by
    rw [List.nodup_cons] at hnd
    by_cases hap : a = p
    · subst hap
      have h1 : decide (¬ a ∈ v) = true := by simpa using hpv
      have h2 : ¬ (decide (¬ a ∈ a :: v) = true) := by simp
      rw [List.filter_cons, List.filter_cons, if_pos h1, if_neg h2, List.map_cons,
        List.sum_cons]
      congr 1
      have heq : ∀ k ∈ l, (decide (¬ k ∈ v)) = (decide (¬ k ∈ a :: v)) := by
        intro k hk
        have hka : ¬ k = a := fun e => hnd.1 (e ▸ hk)
        simp [List.mem_cons, hka]
      rw [List.filter_congr heq]
    · have hpl : p ∈ l := by
        rcases List.mem_cons.mp hp with h | h
        · exact absurd h.symm hap
        · exact h
      have heq : (decide (¬ a ∈ v)) = (decide (¬ a ∈ p :: v)) := by
        simp [List.mem_cons, hap]
      cases hd : decide (¬ a ∈ v) with
      | false =>
        have hd1 : ¬ (decide (¬ a ∈ v) = true) := by
          rw [hd]; exact fun hh => Bool.noConfusion hh
        have hd2 : ¬ (decide (¬ a ∈ p :: v) = true) := by
          rw [← heq, hd]; exact fun hh => Bool.noConfusion hh
        rw [List.filter_cons, List.filter_cons, if_neg hd1, if_neg hd2]
        exact sum_filter_cons f v p hpv l hnd.2 hpl
      | true =>
        have hd2 : decide (¬ a ∈ p :: v) = true := by rw [← heq]; exact hd
        rw [List.filter_cons, List.filter_cons, if_pos hd, if_pos hd2, List.map_cons,
          List.map_cons, List.sum_cons, List.sum_cons]
        rw [sum_filter_cons f v p hpv l hnd.2 hpl]
        omega

theorem walkMeasure_tail (fs : FileSystem) (p : FsPath) (ts v : List FsPath) :
    walkMeasure fs ts v < walkMeasure fs (p :: ts) v := by
  simp only [walkMeasure, List.length_cons]
  omega

theorem walkMeasure_push (fs : FileSystem) (p : FsPath) (ts v deps : List FsPath)
    (hpv : ¬ p ∈ v) (h : walkerDeps fs p = .ok deps) :
    walkMeasure fs (deps.reverse ++ ts) (p :: v) < walkMeasure fs (p :: ts) v := by
  by_cases hm : p ∈ manifestDirs fs
  · have hdl := depsLen_eq fs p deps h
    have hsum := sum_filter_cons (depsLen fs) v p hpv (manifestDirs fs).dedup
      (List.nodup_dedup _) (List.mem_dedup.mpr hm)
    unfold walkMeasure
    rw [hsum, hdl]
    simp only [List.length_append, List.length_reverse, List.length_cons]
    omega
  · have hdeps := walkerDeps_nil_of_not_mem fs p deps hm h
    subst hdeps
    unfold walkMeasure
    have heq : ∀ k ∈ (manifestDirs fs).dedup,
        (decide (¬ k ∈ p :: v)) = (decide (¬ k ∈ v)) := by
      intro k hk
      have hkp : ¬ k = p := fun e => hm (e ▸ List.mem_dedup.mp hk)
      simp [List.mem_cons, hkp]
    rw [List.filter_congr heq]
    simp only [List.reverse_nil, List.nil_append, List.length_cons]
    omega

theorem walkFuel_sufficient (fs : FileSystem) :
    ∀ fuel ts v, walkMeasure fs ts v < fuel → (walkFuel fs fuel ts v).isSome = true := by
  intro fuel
  induction fuel with
  | zero => intro ts v h; omega
  | succ n ih =>
    intro ts v h
    cases ts with
    | nil => simp [walkFuel]
    | cons p rest =>
      simp only [walkFuel]
      by_cases hp : p ∈ v
      · rw [if_pos hp]
        refine ih rest v ?_
        have := walkMeasure_tail fs p rest v
        omega
      · rw [if_neg hp]
        cases hw : walkerDeps fs p with
        | error e => simp
        | ok deps =>
          refine ih _ _ ?_
          have := walkMeasure_push fs p rest v deps hp hw
          omega

theorem walkFuel_preserve (fs : FileSystem) :
    ∀ fuel ts v r, walkFuel fs fuel ts v = some (.ok r) →
      ∀ x, x ∈ v ∨ x ∈ ts → x ∈ r := by
  intro fuel
  induction fuel with
  | zero => intro ts v r h; simp [walkFuel] at h
  | succ n ih =>
    intro ts v r h x hx
    cases ts with
    | nil =>
      simp only [walkFuel, Option.some.injEq, Except.ok.injEq] at h
      subst h
      rcases hx with hx | hx
      · exact (sortPaths_mem x v).mpr hx
      · simp at hx
    | cons p rest =>
      simp only [walkFuel] at h
      by_cases hp : p ∈ v
      · rw [if_pos hp] at h
        refine ih rest v r h x ?_
        rcases hx with hx | hx
        · exact Or.inl hx
        · rcases List.mem_cons.mp hx with rfl | hx
          · exact Or.inl hp
          · exact Or.inr hx
      · rw [if_neg hp] at h
        cases hw : walkerDeps fs p with
        | error e => rw [hw] at h; simp at h
        | ok deps =>
          rw [hw] at h
          refine ih _ _ r h x ?_
          rcases hx with hx | hx
          · exact Or.inl (List.mem_cons.mpr (Or.inr hx))
          · rcases List.mem_cons.mp hx with rfl | hx
            · exact Or.inl (List.mem_cons.mpr (Or.inl rfl))
            · exact Or.inr (List.mem_append.mpr (Or.inr hx))

theorem walkFuel_sound (fs : FileSystem) (P : FsPath → Prop)
    (hstep : ∀ q l x, P q → walkerDeps fs q = .ok l → x ∈ l → P x) :
    ∀ fuel ts v r, walkFuel fs fuel ts v = some (.ok r) →
      (∀ x ∈ ts, P x) → (∀ x ∈ v, P x) → ∀ x ∈ r, P x := by
  intro fuel
  induction fuel with
  | zero => intro ts v r h; simp [walkFuel] at h
  | succ n ih =>
    intro ts v r h hts hv x hxr
    cases ts with
    | nil =>
      simp only [walkFuel, Option.some.injEq, Except.ok.injEq] at h
      subst h
      exact hv x ((sortPaths_mem x v).mp hxr)
    | cons p rest =>
      simp only [walkFuel] at h
      by_cases hp : p ∈ v
      · rw [if_pos hp] at h
        exact ih rest v r h (fun y hy => hts y (List.mem_cons.mpr (Or.inr hy))) hv x hxr
      · rw [if_neg hp] at h
        cases hw : walkerDeps fs p with
        | error e => rw [hw] at h; simp at h
        | ok deps =>
          rw [hw] at h
          have hP : P p := hts p (List.mem_cons.mpr (Or.inl rfl))
          refine ih _ _ r h ?_ ?_ x hxr
          · intro y hy
            rcases List.mem_append.mp hy with hy | hy
            · exact hstep p deps y hP hw (List.mem_reverse.mp hy)
            · exact hts y (List.mem_cons.mpr (Or.inr hy))
          · intro y hy
            rcases List.mem_cons.mp hy with rfl | hy
            · exact hP
            · exact hv y hy

theorem walkFuel_closed (fs : FileSystem) :
    ∀ fuel ts v r, walkFuel fs fuel ts v = some (.ok r) →
      (∀ y ∈ v, ∀ l, walkerDeps fs y = .ok l → ∀ x ∈ l, x ∈ v ∨ x ∈ ts) →
      ∀ y ∈ r, ∀ l, walkerDeps fs y = .ok l → ∀ x ∈ l, x ∈ r := by
  intro fuel
  induction fuel with
  | zero => intro ts v r h; simp [walkFuel] at h
  | succ n ih =>
    intro ts v r h hinv y hyr l hyl x hxl
    cases ts with
    | nil =>
      simp only [walkFuel, Option.some.injEq, Except.ok.injEq] at h
      subst h
      have hyv := (sortPaths_mem y v).mp hyr
      rcases hinv y hyv l hyl x hxl with hx | hx
      · exact (sortPaths_mem x v).mpr hx
      · simp at hx
    | cons p rest =>
      simp only [walkFuel] at h
      by_cases hp : p ∈ v
      · rw [if_pos hp] at h
        refine ih rest v r h ?_ y hyr l hyl x hxl
        intro y2 hy2 l2 hl2 x2 hx2
        rcases hinv y2 hy2 l2 hl2 x2 hx2 with hx | hx
        · exact Or.inl hx
        · rcases List.mem_cons.mp hx with rfl | hx
          · exact Or.inl hp
          · exact Or.inr hx
      · rw [if_neg hp] at h
        cases hw : walkerDeps fs p with
        | error e => rw [hw] at h; simp at h
        | ok deps =>
          rw [hw] at h
          refine ih _ _ r h ?_ y hyr l hyl x hxl
          intro y2 hy2 l2 hl2 x2 hx2
          rcases List.mem_cons.mp hy2 with rfl | hy2
          · rw [hw] at hl2
            have hld : l2 = deps := (Except.ok.inj hl2).symm
            subst hld
            exact Or.inr (List.mem_append.mpr (Or.inl (List.mem_reverse.mpr hx2)))
          · rcases hinv y2 hy2 l2 hl2 x2 hx2 with hx | hx
            · exact Or.inl (List.mem_cons.mpr (Or.inr hx))
            · rcases List.mem_cons.mp hx with rfl | hx
              · exact Or.inl (List.mem_cons.mpr (Or.inl rfl))
              · exact Or.inr (List.mem_append.mpr (Or.inr hx))

theorem walkFuel_shape (fs : FileSystem) :
    ∀ fuel ts v r, walkFuel fs fuel ts v = some (.ok r) → v.Nodup →
      r.Nodup ∧ List.Pairwise (fun a b => pathLe a b = true) r := by
  intro fuel
  induction fuel with
  | zero => intro ts v r h; simp [walkFuel] at h
  | succ n ih =>
    intro ts v r h hv
    cases ts with
    | nil =>
      simp only [walkFuel, Option.some.injEq, Except.ok.injEq] at h
      subst h
      exact ⟨sortPaths_nodup v hv, sortPaths_sorted v⟩
    | cons p rest =>
      simp only [walkFuel] at h
      by_cases hp : p ∈ v
      · rw [if_pos hp] at h
        exact ih rest v r h hv
      · rw [if_neg hp] at h
        cases hw : walkerDeps fs p with
        | error e => rw [hw] at h; simp at h
        | ok deps =>
          rw [hw] at h
          exact ih _ _ r h (List.nodup_cons.mpr ⟨hp, hv⟩)

theorem walkFuel_no_error (fs : FileSystem)
    (hwf : ∀ p, ∃ l, walkerDeps fs p = .ok l) :
    ∀ fuel ts v e, walkFuel fs fuel ts v = some (.error e) → False := by
  intro fuel
  induction fuel with
  | zero => intro ts v e h; simp [walkFuel] at h
  | succ n ih =>
    intro ts v e h
    cases ts with
    | nil => simp [walkFuel] at h
    | cons p rest =>
      simp only [walkFuel] at h
      by_cases hp : p ∈ v
      · rw [if_pos hp] at h
        exact ih rest v e h
      · rw [if_neg hp] at h
        obtain ⟨l, hl⟩ := hwf p
        rw [hl] at h
        exact ih _ _ e h

theorem walkerDeps_total (fs : FileSystem)
    (hwf : ∀ d ∈ manifestDirs fs, exceptIsOk (walkerDeps fs d) = true) :
    ∀ p, ∃ l, walkerDeps fs p = .ok l := by
  intro p
  cases hw : walkerDeps fs p with
  | ok l => exact ⟨l, rfl⟩
  | error e =>
    exfalso
    have hm : p ∈ manifestDirs fs := by
      by_contra hm
      unfold walkerDeps at hw
      split at hw
      case isTrue hex => exact hm (mem_manifestDirs_of_exists fs p hex)
      case isFalse hex => exact Except.noConfusion hw
    have hok := hwf p hm
    rw [hw] at hok
    simp [exceptIsOk] at hok

theorem pathDep_nil (fs : FileSystem) (p : FsPath) (h : PathDep fs [] p) : False := by
  induction h with
  | seed q hq => simp at hq
  | step q r l _ _ _ ih => exact ih

/-- C4: over every dependency graph (a filesystem snapshot whose present
manifests are readable and well-formed — that is the hypothesis, decidable
over the finitely many manifest directories), the transitive-closure walk
terminates with a result (the fuel bound is never reached), the result is
duplicate-free and sorted, its members are exactly the paths reachable from
the seeds, and it contains every seed. -/
theorem c4_transitive_closure (fs : FileSystem) (seeds : List FsPath)
    (hwf : ∀ d ∈ manifestDirs fs, exceptIsOk (walkerDeps fs d) = true) :
    ∃ res, _find_all_path_dependencies fs seeds = .ok res ∧
      res.Nodup ∧ List.Pairwise (fun a b => pathLe a b = true) res ∧
      (∀ x, x ∈ res ↔ PathDep fs seeds x) ∧
      (∀ p ∈ seeds, p ∈ res) := by
  have htot := walkerDeps_total fs hwf
  unfold _find_all_path_dependencies
  by_cases hs : seeds.isEmpty
  · rw [if_pos hs]
    have hseeds : seeds = [] := by
      cases seeds with
      | nil => rfl
      | cons a l => simp [List.isEmpty] at hs
    subst hseeds
    refine ⟨[], rfl, by simp, by simp, ?_, by simp⟩
    intro x
    simp only [List.not_mem_nil, false_iff]
    exact fun h => pathDep_nil fs x h
  · rw [if_neg hs]
    have hlt : walkMeasure fs seeds [] < walkMeasure fs seeds [] + 1 := Nat.lt_succ_self _
    have hsome := walkFuel_sufficient fs (walkMeasure fs seeds [] + 1) seeds [] hlt
    cases hfw : walkFuel fs (walkMeasure fs seeds [] + 1) seeds [] with
    | none => rw [hfw] at hsome; simp at hsome
    | some res0 =>
      cases res0 with
      | error e => exact (walkFuel_no_error fs htot _ seeds [] e hfw).elim
      | ok res =>
        refine ⟨res, rfl, ?_, ?_, ?_, ?_⟩
        · exact (walkFuel_shape fs _ _ _ res hfw (by simp)).1
        · exact (walkFuel_shape fs _ _ _ res hfw (by simp)).2
        · intro x
          constructor
          · intro hx
            exact walkFuel_sound fs (PathDep fs seeds)
              (fun q l y hq hw hy => PathDep.step y q l hq hw hy)
              _ _ _ res hfw (fun y hy => PathDep.seed y hy) (by simp) x hx
          · intro hx
            induction hx with
            | seed q hq => exact walkFuel_preserve fs _ _ _ res hfw q (Or.inr hq)
            | step q q2 l _ hw hm ih =>
              exact walkFuel_closed fs _ _ _ res hfw (by simp) q2 ih l hw q hm
        · intro p hp
          exact walkFuel_preserve fs _ _ _ res hfw p (Or.inr hp)

/-- C4 witness: the two-project cycle `A -> B -> A`. Its manifests are all
well-formed, the walk seeded with `A` returns exactly the sorted `[A, B]`,
and the general theorem applies to it. -/
theorem c4_transitive_closure_witness :
    (∀ d ∈ manifestDirs fsCyc, exceptIsOk (walkerDeps fsCyc d) = true) ∧
    _find_all_path_dependencies fsCyc [["A"]] = .ok [["A"], ["B"]] ∧
    (∃ res, _find_all_path_dependencies fsCyc [["A"]] = .ok res ∧
      res.Nodup ∧ List.Pairwise (fun a b => pathLe a b = true) res ∧
      (∀ x, x ∈ res ↔ PathDep fsCyc [["A"]] x) ∧
      (∀ p ∈ [["A"]], p ∈ res)) :=
  ⟨by decide, by decide, c4_transitive_closure fsCyc [["A"]] (by decide)⟩

/-! ## Lemmas about the mixed-layout marker scan -/

theorem anyInitFile_ok (fs : FileSystem) (project_dir : FsPath) :
    ∀ l, (∀ t ∈ l, ∃ s, t = Toml.str s) →
      ∃ b, anyInitFile fs project_dir l = .ok b ∧
        (b = true ↔ ∃ s, Toml.str s ∈ l ∧
          fs.isFile (pathJoin (pathJoin project_dir s) "__init__.py") = true)
  | [], _ => ⟨false, rfl, by simp⟩
  | t :: rest, hstr => by
    obtain ⟨s, rfl⟩ := hstr t (by simp)
    by_cases hf : fs.isFile (pathJoin (pathJoin project_dir s) "__init__.py") = true
    · refine ⟨true, ?_, ?_⟩
      · simp only [anyInitFile, hf, if_true]
      · simp only [true_iff]
        exact ⟨s, by simp, hf⟩
    · obtain ⟨b, hb, hiff⟩ := anyInitFile_ok fs project_dir rest
        (fun t2 ht2 => hstr t2 (by simp [ht2]))
      refine ⟨b, ?_, ?_⟩
      · simp only [anyInitFile, hf, if_false]
        exact hb
      · rw [hiff]
        constructor
        · rintro ⟨s2, hs2, hf2⟩
          exact ⟨s2, by simp [hs2], hf2⟩
        · rintro ⟨s2, hs2, hf2⟩
          rcases List.mem_cons.mp hs2 with he | hs2
          · exact absurd hf2 (by rw [← Toml.str.inj he] at hf; exact hf)
          · exact ⟨s2, hs2, hf2⟩

theorem anyInitFile_error (fs : FileSystem) (project_dir : FsPath) (bad : Toml)
    (post : List Toml) (hbad : ∀ s, ¬ bad = Toml.str s) :
    ∀ pre, (∀ t ∈ pre, ∃ s, t = Toml.str s ∧
        fs.isFile (pathJoin (pathJoin project_dir s) "__init__.py") = false) →
      anyInitFile fs project_dir (pre ++ bad :: post) = .error .typeError
  | [], _ => by
    simp only [List.nil_append]
    cases bad with
    | str s => exact absurd rfl (hbad s)
    | table l => rfl
    | arr l => rfl
    | other => rfl
  | t :: pre, hpre => by
    obtain ⟨s, rfl, hmiss⟩ := hpre t (by simp)
    have ih := anyInitFile_error fs project_dir bad post hbad pre
      (fun t2 ht2 => hpre t2 (by simp [ht2]))
    simp only [List.cons_append, anyInitFile, hmiss]
    exact ih

/-! ## The typed lookup matches its reference semantics -/

theorem getValue_eq_specGet : ∀ (keys : List String) (cur : Toml) (ty : TomlType),
    ¬ keys = [] →
    (match getValueLoop cur keys with
     | none => none
     | some (v, parent_invalid) =>
       if parent_invalid || !(tomlIsType v ty) then none else some v) = specGet cur keys ty
  | [], _, _, h => absurd rfl h
  | [k], cur, ty, _ => by
    cases hg : tomlGet cur k with
    | none => simp [getValueLoop, specGet, hg]
    | some v => cases htv : tomlIsType v ty <;> simp [getValueLoop, specGet, hg, htv]
  | k :: k2 :: rest, cur, ty, _ => by
    cases hg : tomlGet cur k with
    | none => simp [getValueLoop, specGet, hg]
    | some v =>
      cases hvt : tomlIsType v .table with
      | false => simp [getValueLoop, specGet, hg, hvt]
      | true =>
        have ih := getValue_eq_specGet (k2 :: rest) v ty (by simp)
        simpa [getValueLoop, specGet, hg, hvt] using ih

/-- C6: for every non-empty key list, the typed lookup agrees with the
reference semantics `specGet`, under which a missing intermediate key, a
non-table intermediate value, and a mistyped terminal value are all the
same `none` outcome; being a total function into `Option`, the lookup
throws nothing. -/
theorem c6_typed_lookup (f : _TomlFile) (keys : List String) (ty : TomlType)
    (h : ¬ keys = []) : f.get_value keys ty = specGet f.data keys ty := by
  unfold _TomlFile.get_value
  exact getValue_eq_specGet keys f.data ty h

/-- C6 witness: the lookup at a concrete nested key. -/
theorem c6_typed_lookup_witness :
    pyAllTiers.get_value ["tool", "maturin", "module-name"] TomlType.str =
      specGet pyAllTiers.data ["tool", "maturin", "module-name"] TomlType.str :=
  c6_typed_lookup pyAllTiers ["tool", "maturin", "module-name"] TomlType.str (by decide)

/-- C1: module-name resolution is the strict 4-tier precedence chain
`tool.maturin.module-name`, `lib.name`, `project.name`, `package.name`
(each tier counted only when present as a well-typed string), and it is
absent exactly when all four tiers are absent. -/
theorem c1_module_name_precedence (pyproject cargo : _TomlFile) :
    (∀ v, pyproject.getStr ["tool", "maturin", "module-name"] = some v →
      _resolve_module_name pyproject cargo = some v) ∧
    (pyproject.getStr ["tool", "maturin", "module-name"] = none →
      ∀ v, cargo.getStr ["lib", "name"] = some v →
        _resolve_module_name pyproject cargo = some v) ∧
    (pyproject.getStr ["tool", "maturin", "module-name"] = none →
      cargo.getStr ["lib", "name"] = none →
      ∀ v, pyproject.getStr ["project", "name"] = some v →
        _resolve_module_name pyproject cargo = some v) ∧
    (pyproject.getStr ["tool", "maturin", "module-name"] = none →
      cargo.getStr ["lib", "name"] = none →
      pyproject.getStr ["project", "name"] = none →
      _resolve_module_name pyproject cargo = cargo.getStr ["package", "name"]) ∧
    (_resolve_module_name pyproject cargo = none ↔
      pyproject.getStr ["tool", "maturin", "module-name"] = none ∧
      cargo.getStr ["lib", "name"] = none ∧
      pyproject.getStr ["project", "name"] = none ∧
      cargo.getStr ["package", "name"] = none) := by
  cases h1 : pyproject.getStr ["tool", "maturin", "module-name"] <;>
  cases h2 : cargo.getStr ["lib", "name"] <;>
  cases h3 : pyproject.getStr ["project", "name"] <;>
  simp [_resolve_module_name, h1, h2, h3]

/-- C1 witness: with all four tiers present and distinct, tier 1 wins. -/
theorem c1_module_name_precedence_witness :
    _resolve_module_name pyAllTiers cargoAllTiers = some "tier1" :=
  (c1_module_name_precedence pyAllTiers cargoAllTiers).1 "tier1" (by rfl)

/-- C2: for a qualified module name assembled from dot-free, slash-free,
non-empty components, extension-layout resolution returns
(source_root/first, source_root joined with all but the last component,
last component) when there are several components, and collapses all three
to source_root/name for a single component. -/
theorem c2_extension_layout (r : FsPath) (cs : List String) (hne : cs ≠ [])
    (hcomp : ∀ c ∈ cs, ¬ c = "" ∧ ¬ '.' ∈ c.data ∧ ¬ '/' ∈ c.data) :
    (cs.length > 1 →
      _resolve_rust_module r (dotJoin cs) =
        (r ++ [cs.headD ""], r ++ cs.dropLast, cs.getLastD "")) ∧
    (cs.length = 1 →
      _resolve_rust_module r (dotJoin cs) = (r ++ cs, r ++ cs, cs.headD "")) := by
  have hsplit : pySplit (dotJoin cs) '.' = cs :=
    pySplit_dotJoin cs hne (fun c hc => (hcomp c hc).2.1)
  constructor
  · intro hlen
    unfold _resolve_rust_module
    rw [hsplit, if_pos hlen]
    simp only [Prod.mk.injEq]
    refine ⟨?_, ?_, trivial⟩
    · obtain ⟨c, cs2, rfl⟩ := List.exists_cons_of_ne_nil hne
      have hc := hcomp c (by simp)
      simp only [List.headD_cons]
      exact pathJoin_singleton r c hc.1 hc.2.2
    · exact foldl_pathJoin cs.dropLast
        (fun x hx =>
          ⟨(hcomp x ((List.dropLast_sublist cs).subset hx)).1,
           (hcomp x ((List.dropLast_sublist cs).subset hx)).2.2⟩) r
  · intro hlen
    obtain ⟨c, cs2, rfl⟩ := List.exists_cons_of_ne_nil hne
    have hcs2 : cs2 = [] := by
      simp only [List.length_cons] at hlen
      exact List.eq_nil_of_length_eq_zero (by omega)
    subst hcs2
    have hc := hcomp c (by simp)
    unfold _resolve_rust_module
    rw [hsplit]
    rw [if_neg (by simp)]
    have hdj : dotJoin [c] = c := rfl
    rw [hdj, pathJoin_singleton r c hc.1 hc.2.2]
    simp

/-- C2 witness: the specification example `pkg.sub.ext` under root `r`. -/
theorem c2_extension_layout_witness :
    _resolve_rust_module ["r"] (dotJoin ["pkg", "sub", "ext"]) =
      (["r", "pkg"], ["r", "pkg", "sub"], "ext") :=
  (c2_extension_layout ["r"] ["pkg", "sub", "ext"] (by decide) (by decide)).1 (by decide)

/-- C3: in every record `_resolve_project` returns, `python_module` and
`extension_module_dir` are present or absent together, and they are present
exactly when the computed top-level package path (the first component of
the `_resolve_rust_module` triple over the record's own source root and
qualified name) existed at resolution time. -/
theorem c3_paths_present_together (fs : FileSystem) (project_dir : FsPath)
    (proj : MaturinProject) (h : _resolve_project fs project_dir = .ok proj) :
    (proj.python_module.isSome = proj.extension_module_dir.isSome) ∧
    (proj.python_module.isSome =
      fs.pathExists (_resolve_rust_module proj.python_dir proj.module_full_name).1) := by
  unfold _resolve_project at h
  by_cases hpe : fs.pathExists (pathJoin project_dir "pyproject.toml") = false
  · rw [if_pos hpe] at h
    exact Except.noConfusion h
  · rw [if_neg hpe] at h
    cases hload : _TomlFile.load fs (pathJoin project_dir "pyproject.toml") with
    | error e => simp only [hload] at h; exact Except.noConfusion h
    | ok pyproject =>
      simp only [hload] at h
      cases hfind : find_cargo_manifest fs project_dir with
      | error e => simp only [hfind] at h; exact Except.noConfusion h
      | ok mopt =>
        simp only [hfind] at h
        cases mopt with
        | none => exact Except.noConfusion h
        | some manifest_path =>
          cases hload2 : _TomlFile.load fs manifest_path with
          | error e => simp only [hload2] at h; exact Except.noConfusion h
          | ok cargo =>
            simp only [hload2] at h
            cases hname : _resolve_module_name pyproject cargo with
            | none => simp only [hname] at h; exact Except.noConfusion h
            | some module_full_name =>
              simp only [hname] at h
              cases hpy : _resolve_py_root fs project_dir pyproject with
              | error e => simp only [hpy] at h; exact Except.noConfusion h
              | ok python_dir =>
                simp only [hpy] at h
                cases hdeps : _get_immediate_path_dependencies fs
                    manifest_path.dropLast cargo with
                | error e => simp only [hdeps] at h; exact Except.noConfusion h
                | ok ideps =>
                  simp only [hdeps] at h
                  by_cases hex : fs.pathExists
                      (_resolve_rust_module python_dir module_full_name).1 = false
                  · rw [if_pos hex] at h
                    cases Except.ok.inj h
                    exact ⟨rfl, hex.symm⟩
                  · rw [if_neg hex] at h
                    cases Except.ok.inj h
                    have hex2 : fs.pathExists
                        (_resolve_rust_module python_dir module_full_name).1 = true := by
                      cases hb : fs.pathExists
                          (_resolve_rust_module python_dir module_full_name).1
                      · exact absurd hb hex
                      · rfl
                    exact ⟨rfl, hex2.symm⟩

/-- C3 witness: the mixed-layout sample project, whose package path exists. -/
theorem c3_paths_present_together_witness :
    (projMixed.python_module.isSome = projMixed.extension_module_dir.isSome) ∧
    (projMixed.python_module.isSome =
      fsMixed.pathExists
        (_resolve_rust_module projMixed.python_dir projMixed.module_full_name).1) :=
  c3_paths_present_together fsMixed ["proj"] projMixed (by decide)

/-! ## Source-root resolution -/

/-- C5 (amended): (1) a configured `tool.maturin.python-source` override is
returned joined to the project directory for every filesystem — hence with
no existence check; (2) without a `project.name` the project directory is
returned, again for every filesystem; (3) with a project name and, as the
counterexample forces, provided every `tool.maturin.python-packages`
element is a string, the result is `project_dir/src` iff
`rust/Cargo.toml` exists and a marker is found, and `project_dir`
otherwise (with a non-string element the scan can instead raise). -/
theorem c5_source_root_amended (project_dir : FsPath) (pyproject : _TomlFile) :
    (∀ py_root, pyproject.getStr ["tool", "maturin", "python-source"] = some py_root →
      ∀ fs, _resolve_py_root fs project_dir pyproject = .ok (pathJoin project_dir py_root)) ∧
    (pyproject.getStr ["tool", "maturin", "python-source"] = none →
      pyproject.getStr ["project", "name"] = none →
      ∀ fs, _resolve_py_root fs project_dir pyproject = .ok project_dir) ∧
    (∀ project_name, pyproject.getStr ["tool", "maturin", "python-source"] = none →
      pyproject.getStr ["project", "name"] = some project_name →
      (∀ t ∈ pyproject.getArrOrDefault ["tool", "maturin", "python-packages"],
        ∃ s, t = Toml.str s) →
      ∀ fs,
        ((fs.pathExists (pathJoin project_dir "rust/Cargo.toml") = true ∧
          srcMarkerFound fs project_dir (pyReplaceDash project_name)
            (pyproject.getArrOrDefault ["tool", "maturin", "python-packages"])) →
          _resolve_py_root fs project_dir pyproject = .ok (pathJoin project_dir "src")) ∧
        (¬ (fs.pathExists (pathJoin project_dir "rust/Cargo.toml") = true ∧
          srcMarkerFound fs project_dir (pyReplaceDash project_name)
            (pyproject.getArrOrDefault ["tool", "maturin", "python-packages"])) →
          _resolve_py_root fs project_dir pyproject = .ok project_dir)) := by
  refine ⟨?_, ?_, ?_⟩
  · intro py_root h fs
    simp [_resolve_py_root, h]
  · intro h1 h2 fs
    simp [_resolve_py_root, h1, h2]
  · intro project_name h1 h2 hstr fs
    have hall : ∀ t ∈ Toml.str ("src/" ++ pyReplaceDash project_name ++ "/") ::
        pyproject.getArrOrDefault ["tool", "maturin", "python-packages"],
        ∃ s, t = Toml.str s := by
      intro t ht
      rcases List.mem_cons.mp ht with rfl | ht
      · exact ⟨_, rfl⟩
      · exact hstr t ht
    obtain ⟨b, hb, hiff⟩ := anyInitFile_ok fs project_dir _ hall
    have hbiff : b = true ↔ srcMarkerFound fs project_dir (pyReplaceDash project_name)
        (pyproject.getArrOrDefault ["tool", "maturin", "python-packages"]) := by
      rw [hiff]
      unfold srcMarkerFound
      constructor
      · rintro ⟨s, hs, hf⟩
        rcases List.mem_cons.mp hs with he | hs
        · left
          rw [Toml.str.inj he] at hf
          exact hf
        · right; exact ⟨s, hs, hf⟩
      · rintro (hf | ⟨s, hs, hf⟩)
        · exact ⟨_, List.mem_cons.mpr (Or.inl rfl), hf⟩
        · exact ⟨s, List.mem_cons.mpr (Or.inr hs), hf⟩
    constructor
    · rintro ⟨hrust, hmark⟩
      have hbt : b = true := hbiff.mpr hmark
      subst hbt
      simp [_resolve_py_root, h1, h2, hb, hrust]
    · intro hneg
      by_cases hrust : fs.pathExists (pathJoin project_dir "rust/Cargo.toml") = true
      · have hmark := fun hm => hneg ⟨hrust, hm⟩
        have hbf : b = false := by
          cases hbb : b
          · rfl
          · rw [hbb] at hbiff
            exact absurd (hbiff.mp rfl) hmark
        subst hbf
        simp [_resolve_py_root, h1, h2, hb, hrust]
      · have hrf : fs.pathExists (pathJoin project_dir "rust/Cargo.toml") = false := by
          cases hbb : fs.pathExists (pathJoin project_dir "rust/Cargo.toml")
          · rfl
          · exact absurd hbb hrust
        simp [_resolve_py_root, h1, h2, hb, hrf]

/-- C5 witness: a configured override resolves to `project_dir/python` on
an empty filesystem (nothing is checked for existence). -/
theorem c5_source_root_amended_witness :
    _resolve_py_root fsEmpty ["p"] pySrcOverride = .ok ["p", "python"] :=
  (c5_source_root_amended ["p"] pySrcOverride).1 "python" (by rfl) fsEmpty

/-- C5 counterexample: a non-string `python-packages` element with no
earlier marker hit makes `_resolve_py_root` raise `TypeError`; the claim
instead promised `project_dir` (or `project_dir/src`) here. -/
theorem c5_source_root_counterexample :
    _resolve_py_root fsEmpty ["p"] pyBadPkgs = .error PyErr.typeError ∧
    ¬ _resolve_py_root fsEmpty ["p"] pyBadPkgs = .ok ["p"] ∧
    ¬ _resolve_py_root fsEmpty ["p"] pyBadPkgs = .ok ["p", "src"] := by
  decide

/-- C10 (amended): a non-string element of `tool.maturin.python-packages`
passes the list-typed lookup and aborts source-root resolution with an
uncaught `TypeError` exactly when the `any` scan reaches it — that is,
when neither the conventional `src/<package_name>/__init__.py` marker nor
the marker of any earlier (string) element exists. -/
theorem c10_nonstring_element_amended (fs : FileSystem) (project_dir : FsPath)
    (pyproject : _TomlFile) (project_name : String) (pre post : List Toml) (bad : Toml)
    (h1 : pyproject.getStr ["tool", "maturin", "python-source"] = none)
    (h2 : pyproject.getStr ["project", "name"] = some project_name)
    (h3 : pyproject.getArrOrDefault ["tool", "maturin", "python-packages"] =
      pre ++ bad :: post)
    (h4 : ∀ s, ¬ bad = Toml.str s)
    (h5 : fs.isFile (pathJoin (pathJoin project_dir
      ("src/" ++ pyReplaceDash project_name ++ "/")) "__init__.py") = false)
    (h6 : ∀ t ∈ pre, ∃ s, t = Toml.str s ∧
      fs.isFile (pathJoin (pathJoin project_dir s) "__init__.py") = false) :
    _resolve_py_root fs project_dir pyproject = .error PyErr.typeError := by
  have hscan := anyInitFile_error fs project_dir bad post h4
    (Toml.str ("src/" ++ pyReplaceDash project_name ++ "/") :: pre)
    (by
      intro t ht
      rcases List.mem_cons.mp ht with rfl | ht
      · exact ⟨_, rfl, h5⟩
      · exact h6 t ht)
  simp only [List.cons_append] at hscan
  simp [_resolve_py_root, h1, h2, h3, hscan]

/-- C10 witness: the amended claim at the concrete bad config. -/
theorem c10_nonstring_element_amended_witness :
    _resolve_py_root fsEmpty ["p"] pyBadPkgs = .error PyErr.typeError :=
  c10_nonstring_element_amended fsEmpty ["p"] pyBadPkgs "x" [] [] Toml.other
    (by rfl) (by rfl) (by rfl) (fun s h => Toml.noConfusion h) (by rfl)
    (fun t ht => absurd ht (by simp))

/-- C10 counterexample: with the very same non-string element present but
the conventional marker on disk, the scan short-circuits before reaching
the bad element and resolution succeeds — no exception is raised, contrary
to the claim. -/
theorem c10_nonstring_element_counterexample :
    _resolve_py_root fsSrcMarker ["p"] pyBadPkgs = .ok ["p"] := by
  decide

/-! ## Load failures and the resolver cache -/

theorem load_error_not_resolve (fs : FileSystem) (p : FsPath) (e : PyErr)
    (h : _TomlFile.load fs p = .error e) : ¬ e = PyErr.projectResolveError := by
  unfold _TomlFile.load at h
  cases hl : assocLookup p fs.files with
  | none =>
    simp only [hl] at h
    have he := Except.error.inj h
    subst he
    decide
  | some o =>
    cases o with
    | none =>
      simp only [hl] at h
      have he := Except.error.inj h
      subst he
      decide
    | some data =>
      simp only [hl] at h
      exact Except.noConfusion h

theorem pathExists_of_load_ok (fs : FileSystem) (p : FsPath) (f : _TomlFile)
    (h : _TomlFile.load fs p = .ok f) : fs.pathExists p = true := by
  unfold _TomlFile.load at h
  unfold FileSystem.pathExists
  cases hl : assocLookup p fs.files with
  | none => simp only [hl] at h; exact Except.noConfusion h
  | some o => simp [hl]

/-- C7 (amended): when the package config, or the chosen manifest, exists
but cannot be read or parsed, the load exception escapes
`ProjectResolver.resolve` uncaught — the caller sees the error outcome,
not the absent signal — and the cache is left unchanged; only the caught
`_ProjectResolveError` failures produce the absent signal. -/
theorem c7_load_failure_amended (fs : FileSystem) (cache : ResolverCache)
    (project_dir : FsPath) :
    (∀ e, assocLookup project_dir cache = none →
      fs.pathExists (pathJoin project_dir "pyproject.toml") = true →
      _TomlFile.load fs (pathJoin project_dir "pyproject.toml") = .error e →
      ProjectResolver.resolve fs cache project_dir = (.error e, cache)) ∧
    (∀ e pyproject manifest_path, assocLookup project_dir cache = none →
      _TomlFile.load fs (pathJoin project_dir "pyproject.toml") = .ok pyproject →
      find_cargo_manifest fs project_dir = .ok (some manifest_path) →
      _TomlFile.load fs manifest_path = .error e →
      ProjectResolver.resolve fs cache project_dir = (.error e, cache)) := by
  constructor
  · intro e hc hpe hload
    have hrp : _resolve_project fs project_dir = .error e := by
      unfold _resolve_project
      rw [if_neg (by simp [hpe])]
      simp only [hload]
    unfold ProjectResolver.resolve
    simp only [hc, hrp]
    have hne := load_error_not_resolve fs _ e hload
    cases e with
    | projectResolveError => exact absurd rfl hne
    | tomlDecodeError => rfl
    | osError => rfl
    | typeError => rfl
  · intro e pyproject manifest_path hc hload hfind hload2
    have hpe := pathExists_of_load_ok fs _ pyproject hload
    have hrp : _resolve_project fs project_dir = .error e := by
      unfold _resolve_project
      rw [if_neg (by simp [hpe])]
      simp only [hload, hfind, hload2]
    unfold ProjectResolver.resolve
    simp only [hc, hrp]
    have hne := load_error_not_resolve fs _ e hload2
    cases e with
    | projectResolveError => exact absurd rfl hne
    | tomlDecodeError => rfl
    | osError => rfl
    | typeError => rfl

/-- C7 witness: the amended claim at a project whose chosen `Cargo.toml`
exists but does not parse: the decode error escapes and nothing is cached. -/
theorem c7_load_failure_amended_witness :
    ProjectResolver.resolve fsBadCargo [] ["p"] = (.error PyErr.tomlDecodeError, []) :=
  (c7_load_failure_amended fsBadCargo [] ["p"]).2 PyErr.tomlDecodeError
    ⟨["p", "pyproject.toml"], tomlPyX⟩ ["p", "Cargo.toml"]
    (by rfl) (by rfl) (by rfl) (by rfl)

/-- C7 counterexample: an existing but unparsable `pyproject.toml` makes
`ProjectResolver.resolve` surface the decode exception — the caller does
not receive the absent signal the claim promised. -/
theorem c7_load_failure_counterexample :
    ProjectResolver.resolve fsBadToml [] ["p"] = (.error PyErr.tomlDecodeError, []) ∧
    ¬ (ProjectResolver.resolve fsBadToml [] ["p"]).1 = .ok none := by
  decide

/-- C8: a second `resolve` of the same directory returns exactly the first
call result with the cache unchanged, for an arbitrary second filesystem —
so no file is re-read and on-disk changes are invisible (stale result) —
including when the first call produced the cached negative result. -/
theorem c8_cache_stale (fs1 fs2 : FileSystem) (cache c1 : ResolverCache)
    (project_dir : FsPath) (r : Option MaturinProject)
    (h : ProjectResolver.resolve fs1 cache project_dir = (.ok r, c1)) :
    ProjectResolver.resolve fs2 c1 project_dir = (.ok r, c1) := by
  unfold ProjectResolver.resolve at h ⊢
  cases hl : assocLookup project_dir cache with
  | some r0 =>
    simp only [hl] at h
    injection h with h1 h2
    subst h2
    rw [← Except.ok.inj h1]
    simp only [hl]
  | none =>
    simp only [hl] at h
    cases hrp : _resolve_project fs1 project_dir with
    | ok p =>
      simp only [hrp] at h
      injection h with h1 h2
      subst h2
      rw [← Except.ok.inj h1]
      have hl2 : assocLookup project_dir ((project_dir, some p) :: cache) =
          some (some p) := by simp [assocLookup]
      simp only [hl2]
    | error e =>
      cases e with
      | projectResolveError =>
        simp only [hrp] at h
        injection h with h1 h2
        subst h2
        rw [← Except.ok.inj h1]
        have hl2 : assocLookup project_dir ((project_dir, none) :: cache) =
            some none := by simp [assocLookup]
        simp only [hl2]
      | tomlDecodeError =>
        simp only [hrp] at h
        injection h with h1 h2
        exact Except.noConfusion h1
      | osError =>
        simp only [hrp] at h
        injection h with h1 h2
        exact Except.noConfusion h1
      | typeError =>
        simp only [hrp] at h
        injection h with h1 h2
        exact Except.noConfusion h1

/-- C8 witness: resolve the mixed sample once, then resolve again against
an empty filesystem: the cached record is served unchanged. -/
theorem c8_cache_stale_witness :
    ProjectResolver.resolve fsEmpty [(["proj"], some projMixed)] ["proj"] =
      (.ok (some projMixed), [(["proj"], some projMixed)]) :=
  c8_cache_stale fsMixed fsEmpty [] [(["proj"], some projMixed)] ["proj"]
    (some projMixed) (by decide)

/-! ## The qualified module name -/

/-- C9 (amended): in every record resolution returns, splitting the
qualified name on dots yields at least one component, whose first entry is
`package_name` and whose last is `module_name`; the string itself may be
empty (an empty configured name is propagated verbatim), which is what the
counterexample forces out of the original claim. -/
theorem c9_module_name_components_amended (fs : FileSystem) (project_dir : FsPath)
    (proj : MaturinProject) (_h : _resolve_project fs project_dir = .ok proj) :
    ¬ pySplit proj.module_full_name '.' = [] ∧
    proj.package_name = (pySplit proj.module_full_name '.').headD "" ∧
    proj.module_name = (pySplit proj.module_full_name '.').getLastD "" :=
  ⟨pySplit_ne_nil _ _, rfl, rfl⟩

/-- C9 witness: the amended claim at the mixed sample project. -/
theorem c9_module_name_components_amended_witness :
    ¬ pySplit projMixed.module_full_name '.' = [] ∧
    projMixed.package_name = (pySplit projMixed.module_full_name '.').headD "" ∧
    projMixed.module_name = (pySplit projMixed.module_full_name '.').getLastD "" :=
  c9_module_name_components_amended fsMixed ["proj"] projMixed (by decide)

/-- C9 counterexample: a project configured with `module-name = ""`
resolves successfully to a record whose qualified module name is the empty
string, so the name is not always non-empty. -/
theorem c9_module_name_counterexample :
    Except.map MaturinProject.module_full_name (_resolve_project fsEmptyName ["q"]) =
      Except.ok "" := by
  decide
